import Mathlib

/-!
# Verification of the silkrpc EVM tracer core (`silkrpc/core/evm_trace.cpp`)

This file gives a shallow embedding of the tracer state machines of
`src/silkrpc/core/evm_trace.cpp` and proves properties of the embedded
definitions.  Each definition carries a comment pointing at the source lines
it embeds.  C++ machine integers are modelled as `Nat` (unsigned) or `Int`
(signed, e.g. the `gas_cost`/`used` accounting fields); `std::optional` is
`Option`; `std::vector`/`std::string` are `List`/`String`; `std::map` is an
association list with explicit insert/erase.

External collaborators (the evmone interpreter, the intra-block state, the
reward function) are out of scope of the repository; where a claim depends on
their behaviour the corresponding definition is modelled from the spec and
says so in its doc comment.
-/

namespace EvmTrace

/-! ## Opcode constants (evmc_opcode values used in `evm_trace.cpp`) -/

def OP_STOP : Nat := 0x00
def OP_CALLDATACOPY : Nat := 0x37
def OP_CODECOPY : Nat := 0x39
def OP_RETURNDATACOPY : Nat := 0x3e
def OP_MLOAD : Nat := 0x51
def OP_MSTORE : Nat := 0x52
def OP_MSTORE8 : Nat := 0x53
def OP_SSTORE : Nat := 0x55
def OP_PUSH1 : Nat := 0x60
def OP_CREATE : Nat := 0xf0
def OP_CALL : Nat := 0xf1
def OP_CALLCODE : Nat := 0xf2
def OP_DELEGATECALL : Nat := 0xf4
def OP_CREATE2 : Nat := 0xf5
def OP_STATICCALL : Nat := 0xfa

/-! ## Hex formatting helpers (`evmc::hex` of a single byte) -/

/-- One lowercase hexadecimal digit (as produced by `evmc::hex`). -/
def hexDigit (n : Nat) : Char :=
  Char.ofNat (if n < 10 then 48 + n else 87 + n)

/-- Two lowercase hex characters for one byte, as `evmc::hex({ptr, 1})`
produces in `copy_memory` (line 340). -/
def byteHex (b : Nat) : String :=
  String.mk [hexDigit (b / 16 % 16), hexDigit (b % 16)]

/-! ## `TraceMemory` and the memory-window functions -/

/-- `TraceMemory` (offset/len planted by `copy_memory_offset_len`, `data`
filled by `copy_memory`). -/
structure TraceMemory where
  offset : Nat
  len : Nat
  data : String := ""
deriving DecidableEq, Repr

/-- Modelled from the spec: the evmone `Memory` the tracer reads through
`memory.data()` is, per §8 of the spec, "conceptually infinite with zero
fill"; a byte beyond the current buffer reads as `0x00`. -/
def read_memory_byte (memory : List Nat) (idx : Nat) : Nat :=
  memory.getD idx 0

/-- `copy_memory` (lines 329-344): if a window was planted, drop it when its
`len` is zero, otherwise materialize `len` bytes starting at `offset` from the
current memory into a `"0x…"` hex string. -/
def copy_memory (memory : List Nat) (trace_memory : Option TraceMemory) :
    Option TraceMemory :=
  match trace_memory with
  | none => none
  | some tm =>
    if tm.len = 0 then none
    else
      some { tm with
        data := "0x" ++ String.join
          ((List.range tm.len).map
            (fun idx => byteHex (read_memory_byte memory (tm.offset + idx)))) }

/-- The low 64-bit limb of a 256-bit stack word, i.e. the `stack[i][0]`
accesses in `copy_memory_offset_len`. -/
def limb0 (v : Nat) : Nat := v % 2 ^ 64

/-- `stack[-i]`: the evmone stack-top pointer indexed downwards; the stack is
modelled with its top as the list head. -/
def stackAt (stack : List Nat) (i : Nat) : Nat := stack.getD i 0

/-- `copy_memory_offset_len` (lines 352-381): pre-plant the memory window for
the opcodes that touch memory, from their stack arguments. -/
def copy_memory_offset_len (op_code : Nat) (stack : List Nat)
    (trace_memory : Option TraceMemory) : Option TraceMemory :=
  if op_code = OP_MSTORE ∨ op_code = OP_MLOAD then
    some { offset := limb0 (stackAt stack 0), len := 32 }
  else if op_code = OP_MSTORE8 then
    some { offset := limb0 (stackAt stack 0), len := 1 }
  else if op_code = OP_RETURNDATACOPY ∨ op_code = OP_CALLDATACOPY ∨
      op_code = OP_CODECOPY then
    some { offset := limb0 (stackAt stack 0), len := limb0 (stackAt stack 2) }
  else if op_code = OP_STATICCALL ∨ op_code = OP_DELEGATECALL then
    some { offset := limb0 (stackAt stack 4), len := limb0 (stackAt stack 5) }
  else if op_code = OP_CALL ∨ op_code = OP_CALLCODE then
    some { offset := limb0 (stackAt stack 5), len := limb0 (stackAt stack 6) }
  else if op_code = OP_CREATE ∨ op_code = OP_CREATE2 then
    some { offset := 0, len := 0 }
  else trace_memory

/-! ## evmc status codes -/

/-- The `evmc_status_code` values distinguished by the tracers, plus the
remaining codes that all fall into the `default` cases. -/
inductive EvmcStatus where
  | success
  | failure
  | revert
  | out_of_gas
  | invalid_instruction
  | undefined_instruction
  | stack_overflow
  | stack_underflow
  | bad_jump_destination
  | invalid_memory_access
  | call_depth_exceeded
  | static_mode_violation
  | precompile_failure
  | internal_error
deriving DecidableEq, Repr

/-! ## `VmTraceTracer`: trace op records and execution-end finalization -/

/-- One `TraceOp` of a `VmTrace`, restricted to the fields the gas accounting
reads and writes (`trace_ex.used` is flattened into `used`). -/
structure TraceOp where
  pc : Nat := 0
  op_code : Nat := 0
  gas_cost : Int := 0
  depth : Nat := 0
  call_gas_cap : Int := 0
  used : Int := 0
deriving DecidableEq, Repr

/-- `VmTraceTracer::on_execution_end` (lines 526-569), acting on the ops list
of the frame being popped: empty frames are untouched, a singleton-`STOP`
frame is cleared, otherwise the tail op is finalized by the status switch. -/
def vm_on_execution_end (ops : List TraceOp) (start_gas gas_left : Int)
    (status : EvmcStatus) : List TraceOp :=
  match ops.getLast? with
  | none => ops
  | some op =>
    if op.op_code = OP_STOP ∧ ops.length = 1 then []
    else
      let op2 :=
        match status with
        | .out_of_gas =>
            { op with used := gas_left, gas_cost := op.gas_cost - gas_left }
        | .undefined_instruction =>
            -- the three dependent updates of lines 557-560, in source order:
            -- used = gas_cost; gas_cost = start_gas - gas_cost; used -= gas_cost
            let used1 := op.gas_cost
            let cost2 := start_gas - op.gas_cost
            { op with used := used1 - cost2, gas_cost := cost2 }
        | _ =>
            { op with gas_cost := op.gas_cost - gas_left, used := gas_left }
      ops.dropLast ++ [op2]

/-! ## `TraceTracer`: call-frame traces -/

/-- `TraceAction` (the call/create variant of a `Trace` action).  The C++
fields `from`/`to` clash with Lean tokens and are rendered `from_`/`to_`. -/
structure TraceAction where
  call_type : Option String := none
  from_ : Nat := 0
  to_ : Option Nat := none
  gas : Int := 0
  value : Nat := 0
  input : Option (List Nat) := none
  init : Option (List Nat) := none
deriving DecidableEq, Repr

/-- `RewardAction` (author/rewardType/value). -/
structure RewardAction where
  author : Nat := 0
  reward_type : String := ""
  value : Nat := 0
deriving DecidableEq, Repr

/-- The `std::variant<TraceAction, RewardAction>` held in `Trace::action`. -/
inductive TraceActionV where
  | action (a : TraceAction)
  | reward (r : RewardAction)
deriving DecidableEq, Repr

/-- `TraceResult`. -/
structure TraceResult where
  address : Option Nat := none
  code : Option (List Nat) := none
  output : Option (List Nat) := none
  gas_used : Int := 0
deriving DecidableEq, Repr

/-- `Trace` (one entry of the flat call-trace list); addresses and hashes are
modelled as `Nat`. -/
structure Trace where
  action : TraceActionV := .action {}
  trace_result : Option TraceResult := none
  sub_traces : Nat := 0
  trace_address : List Nat := []
  error : Option String := none
  type : String := ""
  block_hash : Option Nat := none
  block_number : Option Nat := none
  transaction_hash : Option Nat := none
  transaction_position : Option Nat := none
deriving DecidableEq, Repr

/-- The `evmc_call_kind` of a message. -/
inductive CallKind where
  | call
  | delegatecall
  | callcode
  | create
  | create2
deriving DecidableEq, Repr

/-- The fields of `evmc_message` read by `TraceTracer::on_execution_start`. -/
structure EvmMsg where
  depth : Nat := 0
  gas : Int := 0
  sender : Nat := 0
  recipient : Nat := 0
  code_address : Nat := 0
  value : Nat := 0
  input_data : List Nat := []
  kind : CallKind := .call
  static_flag : Bool := false
deriving DecidableEq, Repr

/-- The create-detection heuristic of line 582: the recipient does not exist
in the pre-execution intra-block state, was not created earlier in this
execution, and differs from the code address. -/
def create_heuristic (msg : EvmMsg) (initial_exists_recipient : Bool)
    (created_contains_recipient : Bool) : Bool :=
  !initial_exists_recipient && !created_contains_recipient &&
    (msg.recipient != msg.code_address)

/-- The `Trace` built by `TraceTracer::on_execution_start` (lines 571-625):
type tag, action fields by call kind, and the pre-allocated result slot.  The
trace-address bookkeeping of lines 627-639 is modelled separately. -/
def trace_on_execution_start_action (msg : EvmMsg) (code : List Nat)
    (initial_exists_recipient created_contains_recipient : Bool) : Trace :=
  let create :=
    create_heuristic msg initial_exists_recipient created_contains_recipient
  let base : TraceAction := { from_ := msg.sender, gas := msg.gas, value := msg.value }
  if create then
    { action := .action { base with init := some code },
      type := "create",
      trace_result := some { code := some [], address := some msg.recipient } }
  else
    let a1 := { base with input := some msg.input_data, to_ := some msg.recipient }
    let a2 :=
      match msg.kind with
      | .call =>
          let ct := if msg.static_flag then "staticcall" else "call"
          { a1 with call_type := some ct }
      | .delegatecall =>
          { a1 with call_type := some "delegatecall",
                    to_ := some msg.code_address, from_ := msg.recipient }
      | .callcode => { a1 with call_type := some "callcode" }
      | .create | .create2 => a1
    { action := .action a2, type := "call",
      trace_result := some { output := some [] } }

/-- The output copy-back of `TraceTracer::on_execution_end` lines 681-688:
for nested frames, the result data lands in whichever of `code`/`output` was
pre-allocated at frame start. -/
def copy_output_on_end (current_depth : Int) (trace : Trace)
    (output_data : List Nat) : Trace :=
  if 0 < current_depth then
    match trace.trace_result with
    | some r =>
      if r.code.isSome then
        { trace with trace_result := some { r with code := some output_data } }
      else if r.output.isSome then
        { trace with trace_result := some { r with output := some output_data } }
      else trace
    | none => trace
  else trace

/-- `TraceTracer::on_execution_end` (lines 672-729): output copy-back for
nested frames, then the status switch filling `error`/`trace_result`. -/
def trace_on_execution_end (current_depth : Int) (trace : Trace)
    (start_gas gas_left : Int) (output_data : List Nat)
    (status : EvmcStatus) : Trace :=
  let trace := copy_output_on_end current_depth trace output_data
  match status with
  | .success =>
      { trace with trace_result :=
          trace.trace_result.map (fun r => { r with gas_used := start_gas - gas_left }) }
  | .revert =>
      { trace with error := some "Reverted", trace_result := none }
  | .out_of_gas | .stack_overflow =>
      { trace with error := some "Out of gas", trace_result := none }
  | .undefined_instruction | .invalid_instruction =>
      { trace with error := some "Bad instruction", trace_result := none }
  | .stack_underflow =>
      { trace with error := some "Stack underflow", trace_result := none }
  | .bad_jump_destination =>
      { trace with error := some "Bad jump destination", trace_result := none }
  | _ =>
      { trace with error := some "", trace_result := none }

/-! ## `TraceCallExecutor::trace_block` (lines 1000-1046) -/

/-- Concatenation of a list of lists (`std::vector` append loop). -/
def listJoin {α : Type} : List (List α) → List α
  | [] => []
  | l :: ls => l ++ listJoin ls

/-- `TraceCallExecutor::trace_block`: decorate every call trace of every
transaction with block/transaction context, then build the reward trace.
`per_tx` holds, per transaction position, the `trace` list harvested by
`trace_block_transactions`; `tx_hashes` the transaction hashes.
`has_ethash` is `chain_config.config.count("ethash") != 0`;
`computed_miner_reward` models the external `ethash::compute_reward` miner
reward, which is only invoked in the ethash case (`block_rewards` stays
`{0,{}}` otherwise, line 1027). -/
def trace_block (per_tx : List (List Trace)) (tx_hashes : List Nat)
    (block_number block_hash beneficiary : Nat)
    (has_ethash : Bool) (computed_miner_reward : Nat) : List Trace :=
  let decorated := listJoin ((List.range per_tx.length).map (fun pos =>
    (per_tx.getD pos []).map (fun ct =>
      { ct with
        block_number := some block_number,
        block_hash := some block_hash,
        transaction_position := some pos,
        transaction_hash := some (tx_hashes.getD pos 0) })))
  let miner_reward := if has_ethash then computed_miner_reward else 0
  let reward_trace : Trace :=
    { action := .reward
        { author := beneficiary, reward_type := "block", value := miner_reward },
      type := "reward",
      block_number := some block_number,
      block_hash := some block_hash }
  decorated ++ [reward_trace]

/-! ## `TraceCallExecutor::trace_calls` (lines 1114-1172) -/

/-- The outcome of one `executor.call` invocation for one simulated call (the
executor is external; its pre-check either fails with a message or execution
yields output data). -/
inductive CallOutcome where
  | precheck_err (msg : String)
  | ok (data : List Nat)
deriving DecidableEq, Repr

/-- `TraceCallTraces`, restricted to the `output` field filled by the
`trace_calls` loop (the per-call tracer payloads are orthogonal to the
batch-abort behaviour under scrutiny). -/
structure TraceCallTraces where
  output : String := "0x"
deriving DecidableEq, Repr

/-- `TraceManyCallResult`. -/
structure TraceManyCallResult where
  traces : List TraceCallTraces := []
  pre_check_error : Option String := none
deriving DecidableEq, Repr

/-- Hex rendering of a byte string (`silkworm::to_hex`). -/
def bytesHex (data : List Nat) : String :=
  String.join (data.map byteHex)

/-- The `trace_calls` loop body: `index` is the loop counter; the second
component of the result counts how many `executor.call` invocations happened
(one per iteration entered, line 1158).  On a pre-check error the accumulated
`traces` are cleared, the message is composed, and the loop breaks. -/
def trace_calls_loop :
    List CallOutcome → Nat → TraceManyCallResult → TraceManyCallResult × Nat
  | [], _, acc => (acc, 0)
  | oc :: rest, index, acc =>
    match oc with
    | .precheck_err msg =>
        ({ acc with
            pre_check_error :=
              some ("first run for txIndex " ++ toString index ++ " error: " ++ msg),
            traces := [] }, 1)
    | .ok data =>
        let acc2 := { acc with
          traces := acc.traces ++ [{ output := "0x" ++ bytesHex data }] }
        let r := trace_calls_loop rest (index + 1) acc2
        (r.1, r.2 + 1)

/-- `TraceCallExecutor::trace_calls`, as a function of the per-call executor
outcomes. -/
def trace_calls (outcomes : List CallOutcome) : TraceManyCallResult × Nat :=
  trace_calls_loop outcomes 0 {}

/-- The execution data of a successful outcome. -/
def outcomeData : CallOutcome → List Nat
  | .ok d => d
  | .precheck_err _ => []

/-- A concrete frame trace with a preallocated output slot (as built by
`TraceTracer::on_execution_start` for a call frame). -/
def c6Trace : Trace :=
  { action := .action {}, trace_result := some { output := some [] } }

/-! ## `StateDiffTracer::on_reward_granted` (lines 862-972) -/

/-- `DiffValue`: unchanged (`"="`), added (`"+"`), removed (`"-"`) or changed
(`"*"`).  The hex/quantity string rendering of the payloads is injective and
orthogonal to entry retention, so payloads are kept as raw values. -/
inductive DiffValue (α : Type) where
  | unchanged
  | added (to_ : α)
  | removed (from_ : α)
  | changed (from_ to_ : α)
deriving DecidableEq, Repr

/-- `StateDiffEntry`: the four per-address diff fields; `storage` maps the
recorded keys to their diffs. -/
structure StateDiffEntry where
  balance : DiffValue Nat := .unchanged
  nonce : DiffValue Nat := .unchanged
  code : DiffValue (List Nat) := .unchanged
  storage : List (Nat × DiffValue Nat) := []
deriving DecidableEq, Repr

/-- The default-constructed `StateDiffEntry` that `state_diff_[address_key]`
(std::map::operator[], line 875) inserts when the key is absent. -/
def emptyEntry : StateDiffEntry := {}

/-- The state the tracer reads at reward time: the shadow baseline
(`state_addresses_`), the post-transaction intra-block state, and the storage
keys recorded at `SSTORE` time (`diff_storage_`).  Addresses, keys and values
are modelled as `Nat`, code as a byte list. -/
structure DiffEnv where
  initial_exists : Nat → Bool
  initial_balance : Nat → Nat
  initial_nonce : Nat → Nat
  initial_code : Nat → List Nat
  final_exists : Nat → Bool
  final_balance : Nat → Nat
  final_nonce : Nat → Nat
  final_code : Nat → List Nat
  original_storage : Nat → Nat → Nat
  current_storage : Nat → Nat → Nat
  diff_storage : Nat → List Nat

/-- The `state_diff_` map (`std::map<std::string, StateDiffEntry>`) as an
association list with unique keys. -/
def mapContains (m : List (Nat × StateDiffEntry)) (a : Nat) : Bool :=
  m.any (fun p => p.1 == a)

/-- `std::map::erase(key)`. -/
def mapErase (m : List (Nat × StateDiffEntry)) (a : Nat) :
    List (Nat × StateDiffEntry) :=
  m.filter (fun p => p.1 != a)

/-- Overwrite the value stored under an existing key. -/
def mapSet (m : List (Nat × StateDiffEntry)) (a : Nat) (e : StateDiffEntry) :
    List (Nat × StateDiffEntry) :=
  m.map (fun p => if p.1 == a then (a, e) else p)

/-- The per-touched-address body of `StateDiffTracer::on_reward_granted`
(lines 869-971): `operator[]` default-inserts the entry, then the
(`initial_exists` × `exists`) case split fills or erases it.  Note that in
the `¬initial_exists ∧ ¬exists` case no branch runs and the default-inserted
entry survives. -/
def process_address (env : DiffEnv) (m : List (Nat × StateDiffEntry))
    (address : Nat) : List (Nat × StateDiffEntry) :=
  let m1 := if mapContains m address then m else m ++ [(address, emptyEntry)]
  if env.initial_exists address then
    let ib := env.initial_balance address
    let ic := env.initial_code address
    let inn := env.initial_nonce address
    if env.final_exists address then
      let fb := env.final_balance address
      let fc := env.final_code address
      let fn := env.final_nonce address
      let storage_diffs := (env.diff_storage address).filterMap (fun key =>
        if env.original_storage address key ≠ env.current_storage address key then
          some (key, DiffValue.changed (env.original_storage address key)
                        (env.current_storage address key))
        else none)
      let e : StateDiffEntry :=
        { balance := if ib ≠ fb then .changed ib fb else .unchanged,
          code := if ic ≠ fc then .changed ic fc else .unchanged,
          nonce := if inn ≠ fn then .changed inn fn else .unchanged,
          storage := storage_diffs }
      if ib = fb ∧ ic = fc ∧ inn = fn ∧ storage_diffs = [] then
        mapErase m1 address
      else mapSet m1 address e
    else
      mapSet m1 address
        { balance := .removed ib, code := .removed ic, nonce := .removed inn,
          storage := (env.diff_storage address).map (fun key =>
            (key, DiffValue.removed (env.original_storage address key))) }
  else if env.final_exists address then
    let b := env.final_balance address
    let c := env.final_code address
    let n := env.final_nonce address
    let storage_adds := (env.diff_storage address).map (fun key =>
      (key, DiffValue.added (env.current_storage address key)))
    if b = 0 ∧ c = [] ∧ n = 0 ∧ storage_adds = [] then
      mapErase m1 address
    else
      mapSet m1 address
        { balance := .added b, code := .added c, nonce := .added n,
          storage := storage_adds }
  else m1

/-- `StateDiffTracer::on_reward_granted`: fold the per-address processing over
the touched set (the map starts empty; one reward callback per transaction). -/
def on_reward_granted_state_diff (env : DiffEnv) (touched : List Nat) :
    List (Nat × StateDiffEntry) :=
  touched.foldl (process_address env) []

/-- A concrete reward-time environment in which the touched address exists
neither in the shadow baseline nor in the post-transaction intra-block
state. -/
def c2Env : DiffEnv where
  initial_exists := fun _ => false
  initial_balance := fun _ => 0
  initial_nonce := fun _ => 0
  initial_code := fun _ => []
  final_exists := fun _ => false
  final_balance := fun _ => 0
  final_nonce := fun _ => 0
  final_code := fun _ => []
  original_storage := fun _ _ => 0
  current_storage := fun _ _ => 0
  diff_storage := fun _ => []

/-! ## `VmTraceTracer::on_execution_start` at depth > 0 (lines 436-454) -/

/-- Modelled from the spec: one instruction observed by
`on_instruction_start` in the parent frame, as the EVM interpreter (out of
scope, §1/§6.1) presents it: the opcode byte and the operand-stack height at
the moment the instruction starts. -/
structure FrameInstr where
  op : Nat
  height : Nat
deriving DecidableEq, Repr

/-- Modelled from the spec: well-formedness of a frame's instruction history
under the EVM interpreter contract — a frame starts executing with an empty
operand stack, and no EVM instruction pushes more than one net stack item, so
the height at each instruction start exceeds the previous height by at most
one.  `bound` is the height bound for the next instruction. -/
def heightsOkB : Nat → List FrameInstr → Bool
  | _, [] => true
  | bound, i :: rest =>
      decide (i.height ≤ bound) && heightsOkB (i.height + 1) rest

/-- Modelled from the spec: the operand-stack arguments a call-family opcode
consumes (`CALL`/`CALLCODE`: gas, address, value, argsOffset, argsLength,
retOffset, retLength; `DELEGATECALL`/`STATICCALL`: the same without value).
The interpreter only launches a sub-frame for such an instruction when its
arguments are on the stack. -/
def callMinStack (op : Nat) : Nat :=
  if op = OP_CALL ∨ op = OP_CALLCODE then 7
  else if op = OP_DELEGATECALL ∨ op = OP_STATICCALL then 6
  else 0

/-- The ops list of a frame's `VmTrace` after its instruction history:
`on_instruction_start` appends exactly one `TraceOp` per instruction of the
frame (line 501), with `op_code` taken from the code byte (line 494); ops are
only removed at that frame's own execution end. -/
def buildOps (hist : List FrameInstr) : List TraceOp :=
  hist.map (fun i => { op_code := i.op })

/-- The nested-frame branch of `VmTraceTracer::on_execution_start`
(lines 436-454) acting on the parent frame's ops: when the call-site op (the
parent's last op) is `STATICCALL`/`DELEGATECALL`/`CALL`, read the parent's
second-to-last op to compute the gas cap and update the call-site op.  An
out-of-bounds `ops[...]` read (C++ UB) is modelled as `none`. -/
def vm_on_execution_start_nested (parentOps : List TraceOp)
    (msgGas : Int) (msgDepth : Nat) : Option (List TraceOp) :=
  match parentOps.getLast? with
  | none => none
  | some op =>
    if op.op_code = OP_STATICCALL ∨ op.op_code = OP_DELEGATECALL ∨
        op.op_code = OP_CALL then
      match parentOps.get? (parentOps.length - 2) with
      | none => none
      | some op1 =>
        some (parentOps.dropLast ++
          [{ op with depth := msgDepth, gas_cost := op.gas_cost - msgGas,
                     call_gas_cap := op1.used - msgGas }])
    else some parentOps

/-! ## `TraceTracer` trace-address bookkeeping (lines 627-639) -/

/-- The two `Trace` fields the trace-address bookkeeping reads and writes
(the other fields of the freshly appended `Trace` are independent of it). -/
structure TraceNode where
  trace_address : List Nat
  sub_traces : Nat
deriving DecidableEq, Repr

/-- The `TraceTracer` state relevant to trace addresses: the flat `traces_`
vector and the `index_stack_` of currently open frames (top = head). -/
structure TTState where
  traces : List TraceNode
  index_stack : List Nat
deriving DecidableEq, Repr

/-- One callback relevant to the bookkeeping: a frame entry at a given depth,
or a frame exit. -/
inductive TEvent where
  | startE (depth : Nat)
  | endE
deriving DecidableEq, Repr

/-- `TraceTracer::on_execution_start` lines 587-588 and 627-639 (frame
append and trace-address assignment) and `on_execution_end` lines 673-674
(index-stack pop).  At depth > 0 with an open frame, the new frame's address
extends the parent's by the parent's `sub_traces`, which is then
incremented. -/
def step_event (st : TTState) : TEvent → TTState
  | .startE depth =>
    let index := st.traces.length
    if 0 < depth then
      match st.index_stack with
      | p :: _ =>
        let parent := st.traces.getD p ⟨[], 0⟩
        { traces :=
            st.traces.set p ⟨parent.trace_address, parent.sub_traces + 1⟩ ++
              [⟨parent.trace_address ++ [parent.sub_traces], 0⟩],
          index_stack := index :: st.index_stack }
      | [] =>
        { traces := st.traces ++ [⟨[], 0⟩],
          index_stack := index :: st.index_stack }
    else
      { traces := st.traces ++ [⟨[], 0⟩],
        index_stack := index :: st.index_stack }
  | .endE =>
    { traces := st.traces, index_stack := st.index_stack.tail }

/-- Run the tracer over a callback sequence. -/
def run_events (events : List TEvent) (st : TTState) : TTState :=
  events.foldl step_event st

/-! A transaction's nesting of call frames is a tree: every
`on_execution_start` at depth d is eventually matched by its
`on_execution_end`, and the frames started in between are exactly its
children at depth d+1 (spec §5: callbacks arrive in strict program order
matching EVM execution). -/

mutual
/-- A call tree: one frame and its ordered sub-frames. -/
inductive CTree where
  | node : CForest → CTree
deriving DecidableEq, Repr
/-- An ordered forest of call trees. -/
inductive CForest where
  | nil : CForest
  | cons : CTree → CForest → CForest
deriving DecidableEq, Repr
end

/-- Number of trees in a forest. -/
def CForest.length : CForest → Nat
  | .nil => 0
  | .cons _ cs => cs.length + 1

mutual
/-- The callback sequence of one frame executed at depth `d`. -/
def eventsT : CTree → Nat → List TEvent
  | .node cs, d => .startE d :: (eventsF cs (d + 1) ++ [.endE])
/-- The callback sequence of a forest of sibling frames at depth `d`. -/
def eventsF : CForest → Nat → List TEvent
  | .nil, _ => []
  | .cons c cs, d => eventsT c d ++ eventsF cs d
end

mutual
/-- The expected flat trace list of a frame whose address is `p`: the frame
itself (its `sub_traces` = number of direct children), then its children's
lists in order, at addresses `p ++ [0]`, `p ++ [1]`, …. -/
def flattenT : CTree → List Nat → List TraceNode
  | .node cs, p => ⟨p, cs.length⟩ :: flattenF cs p 0
/-- The expected flat trace lists of sibling frames, the first child getting
index `k`. -/
def flattenF : CForest → List Nat → Nat → List TraceNode
  | .nil, _, _ => []
  | .cons c cs, p, k => flattenT c (p ++ [k]) ++ flattenF cs p (k + 1)
end

/-- The trace list produced by a whole transaction (one outermost frame at
depth 0, starting from an empty tracer state). -/
def run_traces (t : CTree) : TTState :=
  run_events (eventsT t 0) ⟨[], []⟩

/-- Decides whether `tr`'s address is a direct-child address of `a`, i.e.
`tr.trace_address = a ++ [k]` for some `k`. -/
def childB (a : List Nat) (tr : TraceNode) : Bool :=
  !tr.trace_address.isEmpty && (tr.trace_address.dropLast == a)

/-! ## Shared helper lemmas -/

theorem byteHex_length (b : Nat) : (byteHex b).length = 2 := rfl

theorem join_map_length_two (l : List Nat) (f : Nat → String)
    (h : ∀ x, (f x).length = 2) :
    (String.join (l.map f)).length = 2 * l.length := by
  simp [String.join_eq, String.length]
  induction l with
  | nil => simp
  | cons a l ih => simp [ih, h]; ring

/-! ## Claim C3: `copy_memory` reads exactly `len` zero-filled bytes -/

/-- C3.  For every op whose pre-planted memory window has nonzero length,
`copy_memory` materializes exactly `len` bytes starting at the recorded
offset (the `"0x"` prefix plus two hex characters per byte), every byte
access is total with zero fill beyond the current memory buffer, and an
`MSTORE8` whose offset lies exactly at memory end still yields a 1-byte
window reading `0x00`. -/
theorem copy_memory_zero_fill (memory : List Nat) (tm : TraceMemory)
    (hlen : 0 < tm.len) :
    (∃ out, copy_memory memory (some tm) = some out ∧
      out.offset = tm.offset ∧ out.len = tm.len ∧
      out.data.length = 2 + 2 * tm.len) ∧
    (∀ idx, memory.length ≤ idx → read_memory_byte memory idx = 0) ∧
    (∀ rest, memory.length < 2 ^ 64 →
      copy_memory memory
        (copy_memory_offset_len OP_MSTORE8 (memory.length :: rest) none) =
        some { offset := memory.length, len := 1, data := "0x00" }) := by
  refine ⟨?_, ?_, ?_⟩
  · simp only [copy_memory, if_neg hlen.ne']
    refine ⟨_, rfl, rfl, rfl, ?_⟩
    rw [String.length_append,
      join_map_length_two _ _ (fun x => byteHex_length _), List.length_range]
    rfl
  · intro idx h
    exact List.getD_eq_default memory 0 h
  · intro rest hmem
    norm_num at hmem
    have hoff : limb0 (stackAt (memory.length :: rest) 0) = memory.length := by
      simp [limb0, stackAt]
      omega
    have hread : read_memory_byte memory memory.length = 0 :=
      List.getD_eq_default memory 0 (by omega)
    have hr1 : List.range 1 = [0] := rfl
    simp [copy_memory_offset_len, OP_MSTORE8, OP_MSTORE, OP_MLOAD, hoff,
      copy_memory, hr1, hread]
    decide

/-- Witness for C3: a 1-byte memory `[0xab]`; the `MSTORE8` window planted at
offset `memory.length = 1` materializes as the zero byte `"0x00"`. -/
theorem copy_memory_zero_fill_witness :
    copy_memory [171]
      (copy_memory_offset_len OP_MSTORE8 ([171].length :: []) none) =
      some { offset := [171].length, len := 1, data := "0x00" } ∧ 0 < 1 := by
  have h := (copy_memory_zero_fill [171] { offset := 0, len := 1 }
    (by decide)).2.2 [] (by decide)
  exact ⟨h, by decide⟩

/-! ## Claim C5: `UNDEFINED_INSTRUCTION` tail finalization arithmetic -/

/-- C5.  When `VmTraceTracer::on_execution_end` fires with
`UNDEFINED_INSTRUCTION` on a frame whose ops list is non-empty (and not the
singleton-`STOP` case), writing `g` for the tail op's current `gas_cost`
field, the three dependent updates leave `gas_cost = start_gas - g` and
`used = 2*g - start_gas`. -/
theorem vm_trace_end_undefined_gas (ops : List TraceOp) (op : TraceOp)
    (sg gl : Int)
    (hlast : ops.getLast? = some op)
    (hnot : ¬(op.op_code = OP_STOP ∧ ops.length = 1)) :
    vm_on_execution_end ops sg gl .undefined_instruction =
      ops.dropLast ++ [{ op with gas_cost := sg - op.gas_cost,
                                 used := 2 * op.gas_cost - sg }] := by
  have h2 : op.gas_cost - (sg - op.gas_cost) = 2 * op.gas_cost - sg := by ring
  simp [vm_on_execution_end, hlast, hnot, h2]

/-- Witness for C5: one tail op with `gas_cost = 10`, `start_gas = 100`:
finalized to `gas_cost = 90`, `used = -80`. -/
theorem vm_trace_end_undefined_gas_witness :
    vm_on_execution_end [{ op_code := 11, gas_cost := 10 }] 100 0
        .undefined_instruction =
      [{ op_code := 11, gas_cost := 90, used := -80 }] := by
  have h := vm_trace_end_undefined_gas [{ op_code := 11, gas_cost := 10 }]
    { op_code := 11, gas_cost := 10 } 100 0 (by rfl) (by decide)
  simpa using h

/-! ## Claim C8: singleton-`STOP` frames are cleared -/

/-- C8.  For every frame whose `VmTrace` holds exactly one op with opcode
`STOP`, `VmTraceTracer::on_execution_end` clears the ops list regardless of
the result status — no status-dependent tail finalization is applied — so a
transaction executing a single `STOP` yields a `VmTrace` with empty `ops`. -/
theorem vm_trace_stop_suppression (op : TraceOp) (sg gl : Int)
    (status : EvmcStatus) (hstop : op.op_code = OP_STOP) :
    vm_on_execution_end [op] sg gl status = [] := by
  simp [vm_on_execution_end, hstop]

/-- Witness for C8: a lone `STOP` op is suppressed (here under `SUCCESS`). -/
theorem vm_trace_stop_suppression_witness :
    vm_on_execution_end [{ op_code := 0, gas_cost := 3 }] 21000 3 .success = [] :=
  vm_trace_stop_suppression { op_code := 0, gas_cost := 3 } 21000 3 .success rfl

/-! ## Claim C6: `TraceTracer::on_execution_end` status mapping -/

theorem copy_output_error (d : Int) (tr : Trace) (out : List Nat) :
    (copy_output_on_end d tr out).error = tr.error := by
  unfold copy_output_on_end
  by_cases hd : 0 < d
  · simp only [if_pos hd]
    cases h : tr.trace_result with
    | none => rfl
    | some r =>
      by_cases hc : r.code.isSome
      · simp [hc]
      · by_cases ho : r.output.isSome
        · simp [hc, ho]
        · simp [hc, ho]
  · simp [if_neg hd]

theorem copy_output_result_isSome (d : Int) (tr : Trace) (out : List Nat) :
    (copy_output_on_end d tr out).trace_result.isSome = tr.trace_result.isSome := by
  unfold copy_output_on_end
  by_cases hd : 0 < d
  · simp only [if_pos hd]
    cases h : tr.trace_result with
    | none => simp [h]
    | some r =>
      by_cases hc : r.code.isSome
      · simp [hc, h]
      · by_cases ho : r.output.isSome
        · simp [hc, ho, h]
        · simp [hc, ho, h]
  · simp [if_neg hd]

/-- C6.  `TraceTracer::on_execution_end` maps the result status to error and
result exactly as: `SUCCESS` keeps the result, sets
`gas_used = start_gas - gas_left` and leaves no error; `REVERT` →
`"Reverted"`; `OUT_OF_GAS`/`STACK_OVERFLOW` → `"Out of gas"`;
`UNDEFINED_INSTRUCTION`/`INVALID_INSTRUCTION` → `"Bad instruction"`;
`STACK_UNDERFLOW` → `"Stack underflow"`; `BAD_JUMP_DESTINATION` →
`"Bad jump destination"`; every other status → `""`; and in every
non-`SUCCESS` case the result is dropped. -/
theorem trace_end_status_mapping (d : Int) (tr : Trace) (sg gl : Int)
    (out : List Nat) (herr : tr.error = none) :
    ((trace_on_execution_end d tr sg gl out .success).error = none ∧
     (trace_on_execution_end d tr sg gl out .success).trace_result.isSome =
       tr.trace_result.isSome ∧
     (∀ r, (trace_on_execution_end d tr sg gl out .success).trace_result = some r →
       r.gas_used = sg - gl)) ∧
    ((trace_on_execution_end d tr sg gl out .revert).error = some "Reverted" ∧
     (trace_on_execution_end d tr sg gl out .revert).trace_result = none) ∧
    ((trace_on_execution_end d tr sg gl out .out_of_gas).error = some "Out of gas" ∧
     (trace_on_execution_end d tr sg gl out .out_of_gas).trace_result = none) ∧
    ((trace_on_execution_end d tr sg gl out .stack_overflow).error = some "Out of gas" ∧
     (trace_on_execution_end d tr sg gl out .stack_overflow).trace_result = none) ∧
    ((trace_on_execution_end d tr sg gl out .undefined_instruction).error =
       some "Bad instruction" ∧
     (trace_on_execution_end d tr sg gl out .undefined_instruction).trace_result = none) ∧
    ((trace_on_execution_end d tr sg gl out .invalid_instruction).error =
       some "Bad instruction" ∧
     (trace_on_execution_end d tr sg gl out .invalid_instruction).trace_result = none) ∧
    ((trace_on_execution_end d tr sg gl out .stack_underflow).error =
       some "Stack underflow" ∧
     (trace_on_execution_end d tr sg gl out .stack_underflow).trace_result = none) ∧
    ((trace_on_execution_end d tr sg gl out .bad_jump_destination).error =
       some "Bad jump destination" ∧
     (trace_on_execution_end d tr sg gl out .bad_jump_destination).trace_result = none) ∧
    (∀ s, (s = EvmcStatus.failure ∨ s = .invalid_memory_access ∨
        s = .call_depth_exceeded ∨ s = .static_mode_violation ∨
        s = .precompile_failure ∨ s = .internal_error) →
      (trace_on_execution_end d tr sg gl out s).error = some "" ∧
      (trace_on_execution_end d tr sg gl out s).trace_result = none) := by
  have he := copy_output_error d tr out
  have hs := copy_output_result_isSome d tr out
  refine ⟨⟨?_, ?_, ?_⟩, ⟨?_, ?_⟩, ⟨?_, ?_⟩, ⟨?_, ?_⟩, ⟨?_, ?_⟩, ⟨?_, ?_⟩,
    ⟨?_, ?_⟩, ⟨?_, ?_⟩, ?_⟩
  · simp [trace_on_execution_end, he, herr]
  · simp only [trace_on_execution_end]
    simp [hs]
  · intro r hr
    simp only [trace_on_execution_end] at hr
    simp only [Option.map_eq_some'] at hr
    obtain ⟨r0, _, rfl⟩ := hr
    rfl
  all_goals simp [trace_on_execution_end]

/-- Witness for C6: a concrete frame with a preallocated result: `REVERT`
yields `"Reverted"` with the result dropped. -/
theorem trace_end_status_mapping_witness :
    (trace_on_execution_end 0 c6Trace 100 40 [] .revert).error =
      some "Reverted" ∧
    (trace_on_execution_end 0 c6Trace 100 40 [] .revert).trace_result = none := by
  exact (trace_end_status_mapping 0 c6Trace 100 40 [] rfl).2.1

/-! ## Claim C10: DELEGATECALL frames report `to = code_address`,
`from = recipient` -/

/-- C10.  For every non-create frame entered with message kind
`DELEGATECALL`, the action records `call_type = "delegatecall"`,
`to = code_address` and `from = recipient`. -/
theorem delegatecall_action_fields (msg : EvmMsg) (code : List Nat)
    (ie cc : Bool)
    (hkind : msg.kind = .delegatecall)
    (hnc : create_heuristic msg ie cc = false) :
    ∃ a, (trace_on_execution_start_action msg code ie cc).action = .action a ∧
      a.call_type = some "delegatecall" ∧ a.to_ = some msg.code_address ∧
      a.from_ = msg.recipient := by
  simp only [trace_on_execution_start_action, hnc, hkind, Bool.false_eq_true,
    if_false]
  exact ⟨_, rfl, rfl, rfl, rfl⟩

/-- Witness for C10: a delegatecall into already-existing code. -/
theorem delegatecall_action_fields_witness :
    ∃ a, (trace_on_execution_start_action
        { kind := .delegatecall, sender := 3, recipient := 7, code_address := 9 }
        [0] true false).action = .action a ∧
      a.call_type = some "delegatecall" ∧ a.to_ = some 9 ∧ a.from_ = 7 := by
  exact delegatecall_action_fields
    { kind := .delegatecall, sender := 3, recipient := 7, code_address := 9 }
    [0] true false rfl (by decide)

/-! ## Claim C1: the `trace_block` reward trace -/

/-- Counterexample to C1 as stated: for a chain whose configuration lacks the
`"ethash"` (proof-of-work) tag, `trace_block` still appends the final
synthetic reward trace — here a block with no transactions whose whole trace
list is just that reward trace (with value 0). -/
theorem trace_block_reward_counterexample :
    (trace_block [] [] 7 9 11 false 0).getLast? =
      some { action := .reward { author := 11, reward_type := "block", value := 0 },
             type := "reward", block_number := some 7, block_hash := some 9 } ∧
    (trace_block [] [] 7 9 11 false 0).length = 1 ∧
    ∀ tr ∈ trace_block [] [] 7 9 11 false 0, tr.type = "reward" := by
  refine ⟨rfl, rfl, ?_⟩
  decide

/-- C1 (amended).  `trace_block` always ends with a synthetic reward trace of
type `"reward"` whose action is `RewardAction{author = beneficiary,
reward_type = "block"}`; its value is the externally computed miner reward
when the chain config has the proof-of-work (`"ethash"`) tag and `0`
otherwise — the trace itself is not omitted for non-proof-of-work chains. -/
theorem trace_block_reward_always_appended (per_tx : List (List Trace))
    (tx_hashes : List Nat) (bn bh ben : Nat) (he : Bool) (mr : Nat) :
    (trace_block per_tx tx_hashes bn bh ben he mr).getLast? =
      some { action := .reward { author := ben, reward_type := "block",
                                 value := if he then mr else 0 },
             type := "reward", block_number := some bn, block_hash := some bh } := by
  simp [trace_block, List.getLast?_concat]

/-! ## Claim C2: the state-diff map retention invariant -/

/-- C2 (code bug).  A touched address that exists neither in the shadow
baseline nor in the post-transaction intra-block state *does* contribute an
entry: `state_diff_[address_key]` default-inserts it and the
`¬initial_exists ∧ ¬exists` case has no branch that erases it, so the map
retains an entry whose four fields are all `Unchanged` — contradicting the
claimed retention invariant. -/
theorem state_diff_phantom_entry_bug :
    on_reward_granted_state_diff c2Env [5] = [(5, emptyEntry)] ∧
    emptyEntry.balance = .unchanged ∧ emptyEntry.nonce = .unchanged ∧
    emptyEntry.code = .unchanged ∧ emptyEntry.storage = [] := by
  refine ⟨?_, rfl, rfl, rfl, rfl⟩
  rfl

/-! ## Claim C9: `trace_calls` batch abort on pre-check error -/

theorem trace_calls_loop_nil (index : Nat) (acc : TraceManyCallResult) :
    trace_calls_loop [] index acc = (acc, 0) := rfl

theorem trace_calls_loop_cons_ok (d : List Nat) (rest : List CallOutcome)
    (index : Nat) (acc : TraceManyCallResult) :
    trace_calls_loop (CallOutcome.ok d :: rest) index acc =
      ((trace_calls_loop rest (index + 1)
          { acc with traces := acc.traces ++ [{ output := "0x" ++ bytesHex d }] }).1,
       (trace_calls_loop rest (index + 1)
          { acc with traces := acc.traces ++ [{ output := "0x" ++ bytesHex d }] }).2
         + 1) := rfl

theorem trace_calls_loop_cons_err (msg : String) (rest : List CallOutcome)
    (index : Nat) (acc : TraceManyCallResult) :
    trace_calls_loop (CallOutcome.precheck_err msg :: rest) index acc =
      ({ traces := [],
         pre_check_error := some ("first run for txIndex " ++ toString index ++
           " error: " ++ msg) }, 1) := rfl

theorem trace_calls_loop_first_err (post : List CallOutcome) (m : String) :
    ∀ (pre : List CallOutcome), (∀ oc ∈ pre, ∃ d, oc = CallOutcome.ok d) →
    ∀ (index : Nat) (acc : TraceManyCallResult),
      trace_calls_loop (pre ++ .precheck_err m :: post) index acc =
        ({ traces := [],
           pre_check_error := some ("first run for txIndex " ++
             toString (index + pre.length) ++ " error: " ++ m) },
         pre.length + 1) := by
  intro pre
  induction pre with
  | nil =>
    intro h index acc
    rw [List.nil_append, trace_calls_loop_cons_err]
    simp
  | cons oc rest ih =>
    intro h index acc
    obtain ⟨d, rfl⟩ := h oc (by simp)
    rw [List.cons_append, trace_calls_loop_cons_ok]
    rw [ih (fun x hx => h x (by simp [hx])) (index + 1) _]
    have harith : index + 1 + rest.length = index + (rest.length + 1) := by omega
    simp [harith]

theorem trace_calls_loop_all_ok :
    ∀ (outcomes : List CallOutcome),
      (∀ oc ∈ outcomes, ∃ d, oc = CallOutcome.ok d) →
    ∀ (index : Nat) (acc : TraceManyCallResult),
      trace_calls_loop outcomes index acc =
        ({ traces := acc.traces ++ outcomes.map
             (fun oc => { output := "0x" ++ bytesHex (outcomeData oc) }),
           pre_check_error := acc.pre_check_error }, outcomes.length) := by
  intro outcomes
  induction outcomes with
  | nil => intro h index acc; rw [trace_calls_loop_nil]; simp
  | cons oc rest ih =>
    intro h index acc
    obtain ⟨d, rfl⟩ := h oc (by simp)
    rw [trace_calls_loop_cons_ok]
    rw [ih (fun x hx => h x (by simp [hx])) (index + 1) _]
    simp [outcomeData, List.append_assoc]

/-- C9.  If the call at index `i` (= number of preceding, all-successful
calls) is the first to hit a pre-check error `m`, `trace_calls` returns an
empty `traces` list (accumulated results are discarded), the error message
`"first run for txIndex i error: m"`, and executes no call after `i` (exactly
`i + 1` executor invocations happen).  If no call fails the pre-check, every
call contributes one `TraceCallTraces`, in order. -/
theorem trace_calls_precheck (pre post : List CallOutcome) (m : String)
    (hpre : ∀ oc ∈ pre, ∃ d, oc = CallOutcome.ok d) :
    ((trace_calls (pre ++ .precheck_err m :: post)).1.traces = [] ∧
     (trace_calls (pre ++ .precheck_err m :: post)).1.pre_check_error =
       some ("first run for txIndex " ++ toString pre.length ++ " error: " ++ m) ∧
     (trace_calls (pre ++ .precheck_err m :: post)).2 = pre.length + 1) ∧
    (∀ outcomes : List CallOutcome,
      (∀ oc ∈ outcomes, ∃ d, oc = CallOutcome.ok d) →
      (trace_calls outcomes).1.traces = outcomes.map
        (fun oc => { output := "0x" ++ bytesHex (outcomeData oc) }) ∧
      (trace_calls outcomes).1.pre_check_error = none) := by
  constructor
  · have h := trace_calls_loop_first_err post m pre hpre 0 {}
    unfold trace_calls
    rw [h]
    simp
  · intro outcomes hok
    have h := trace_calls_loop_all_ok outcomes hok 0 {}
    unfold trace_calls
    rw [h]
    simp

/-- Witness for C9: two calls, the second hitting a pre-check error: empty
`traces`, message `"first run for txIndex 1 error: …"`, and both (but only
those two) executor invocations happened. -/
theorem trace_calls_precheck_witness :
    (trace_calls [.ok [1], .precheck_err "intrinsic gas"]).1.traces = [] ∧
    (trace_calls [.ok [1], .precheck_err "intrinsic gas"]).1.pre_check_error =
      some ("first run for txIndex " ++ toString (1 : Nat) ++
        " error: " ++ "intrinsic gas") ∧
    (trace_calls [.ok [1], .precheck_err "intrinsic gas"]).2 = 2 := by
  have h := (trace_calls_precheck [.ok [1]] [] "intrinsic gas"
    (by intro oc hoc; simp at hoc; exact ⟨[1], hoc⟩)).1
  simpa using h

/-! ## Claim C4: the parent's second-to-last-op read is in bounds -/

theorem heightsOkB_last_le (x : FrameInstr) :
    ∀ (l : List FrameInstr) (b : Nat),
      heightsOkB b (l ++ [x]) = true → x.height ≤ b + l.length := by
  intro l
  induction l with
  | nil =>
    intro b h
    simp only [List.nil_append, heightsOkB, Bool.and_eq_true,
      decide_eq_true_eq] at h
    simpa using h.1
  | cons i rest ih =>
    intro b h
    simp only [List.cons_append, heightsOkB, Bool.and_eq_true,
      decide_eq_true_eq] at h
    have := ih (i.height + 1) h.2
    simp only [List.length_cons]
    omega

/-- C4.  At a nested execution start whose parent frame's last op is
`CALL`/`STATICCALL`/`DELEGATECALL`, the parent frame holds at least two ops —
the EVM only launches such a sub-call when the call arguments are on the
parent's operand stack, each pushed by an earlier instruction of that frame —
so the `ops[ops.size() - 2]` read is within bounds. -/
theorem nested_call_parent_ops_bound (rest : List FrameInstr)
    (lastI : FrameInstr) (g : Int) (d : Nat)
    (hvalid : heightsOkB 0 (rest ++ [lastI]) = true)
    (hcall : lastI.op = OP_STATICCALL ∨ lastI.op = OP_DELEGATECALL ∨
      lastI.op = OP_CALL)
    (hargs : callMinStack lastI.op ≤ lastI.height) :
    2 ≤ (buildOps (rest ++ [lastI])).length ∧
    (vm_on_execution_start_nested (buildOps (rest ++ [lastI])) g d).isSome
      = true := by
  have hmin : 6 ≤ callMinStack lastI.op := by
    rcases hcall with h | h | h <;> rw [h] <;> decide
  have hle : lastI.height ≤ rest.length := by
    have := heightsOkB_last_le lastI rest 0 hvalid
    omega
  have h6 : 6 ≤ rest.length := by omega
  have hlen : (buildOps (rest ++ [lastI])).length = rest.length + 1 := by
    simp [buildOps]
  refine ⟨by omega, ?_⟩
  have hbuild : buildOps (rest ++ [lastI]) =
      buildOps rest ++ [{ op_code := lastI.op }] := by
    simp [buildOps]
  have hlast2 : (buildOps (rest ++ [lastI])).getLast? =
      some { op_code := lastI.op } := by
    rw [hbuild]
    exact List.getLast?_concat _
  have hlt : (buildOps (rest ++ [lastI])).length - 2 <
      (buildOps (rest ++ [lastI])).length := by omega
  obtain ⟨a, ha⟩ : ∃ a, (buildOps (rest ++ [lastI])).get?
      ((buildOps (rest ++ [lastI])).length - 2) = some a :=
    ⟨_, List.get?_eq_get hlt⟩
  have hc : ({ op_code := lastI.op : TraceOp }).op_code = OP_STATICCALL ∨
      ({ op_code := lastI.op : TraceOp }).op_code = OP_DELEGATECALL ∨
      ({ op_code := lastI.op : TraceOp }).op_code = OP_CALL := by
    simpa using hcall
  simp only [vm_on_execution_start_nested, hlast2]
  rw [if_pos hc]
  rw [List.get?_eq_getElem?] at ha
  simp [ha]

/-- Witness for C4: six `PUSH1`s (heights 0-5) then a `DELEGATECALL` at
height 6: the parent frame has 7 ops and the `ops.size() - 2` read
succeeds. -/
theorem nested_call_parent_ops_bound_witness :
    2 ≤ (buildOps ([⟨96, 0⟩, ⟨96, 1⟩, ⟨96, 2⟩, ⟨96, 3⟩, ⟨96, 4⟩, ⟨96, 5⟩] ++
      [⟨244, 6⟩])).length ∧
    (vm_on_execution_start_nested
      (buildOps ([⟨96, 0⟩, ⟨96, 1⟩, ⟨96, 2⟩, ⟨96, 3⟩, ⟨96, 4⟩, ⟨96, 5⟩] ++
        [⟨244, 6⟩])) 5 1).isSome = true := by
  exact nested_call_parent_ops_bound
    [⟨96, 0⟩, ⟨96, 1⟩, ⟨96, 2⟩, ⟨96, 3⟩, ⟨96, 4⟩, ⟨96, 5⟩] ⟨244, 6⟩ 5 1
    (by decide) (by decide) (by decide)

/-! ## Claim C7: trace-address assignment and the `sub_traces` invariant -/

theorem list_set_getD_self {α : Type} (d : α) :
    ∀ (l : List α) (p : Nat), p < l.length → l.set p (l.getD p d) = l := by
  intro l
  induction l with
  | nil => intro p h; simp at h
  | cons a l ih =>
    intro p h
    cases p with
    | zero => simp
    | succ q =>
      simp only [List.getD_cons_succ, List.set_cons_succ, List.cons.injEq,
        true_and]
      exact ih q (by simpa using h)

theorem list_getD_concat_self {α : Type} (d : α) (l : List α) (x : α) :
    (l ++ [x]).getD l.length d = x := by
  induction l with
  | nil => rfl
  | cons a l ih => simp [ih]

theorem list_getD_set_self {α : Type} (d : α) (l : List α) (p : Nat) (v : α)
    (h : p < l.length) : (l.set p v).getD p d = v := by
  simp [List.getD_eq_getElem?_getD, List.getElem?_set_self, h]

theorem list_set_concat_self {α : Type} (l : List α) (x a : α) :
    (l ++ [x]).set l.length a = l ++ [a] := by
  rw [List.set_append_right _ _ (Nat.le_refl _)]
  simp

/-- The per-trace counting property of a flat trace list: every entry's
`sub_traces` equals the number of entries after it whose trace address
extends its own by one element. -/
def Counts (L : List TraceNode) : Prop :=
  ∀ pre e post, L = pre ++ e :: post →
    e.sub_traces = post.countP (childB e.trace_address)

theorem childB_iff (a : List Nat) (tr : TraceNode) :
    childB a tr = true ↔ ∃ k, tr.trace_address = a ++ [k] := by
  unfold childB
  rcases List.eq_nil_or_concat tr.trace_address with h | ⟨l, x, h⟩
  · simp [h]
  · rw [List.concat_eq_append] at h
    rw [h]
    have h0 : (l ++ [x]).isEmpty = false := by cases l <;> rfl
    rw [h0]
    simp only [List.dropLast_concat, Bool.not_false, Bool.true_and, beq_iff_eq]
    constructor
    · intro hb
      exact ⟨x, by rw [hb]⟩
    · rintro ⟨k, hk⟩
      exact (List.append_inj' hk rfl).1

theorem childB_length (a : List Nat) (tr : TraceNode)
    (h : childB a tr = true) : tr.trace_address.length = a.length + 1 := by
  obtain ⟨k, hk⟩ := (childB_iff a tr).mp h
  simp [hk]

theorem counts_nil : Counts [] := by
  intro pre e post h
  exact absurd h (by simp)

theorem counts_cons (x : TraceNode) (B : List TraceNode)
    (hx : B.countP (childB x.trace_address) = x.sub_traces)
    (hB : Counts B) : Counts (x :: B) := by
  intro pre e post h
  cases pre with
  | nil =>
    rw [List.nil_append] at h
    obtain ⟨rfl, rfl⟩ := List.cons_eq_cons.mp h
    exact hx.symm
  | cons y pre2 =>
    rw [List.cons_append] at h
    obtain ⟨rfl, h2⟩ := List.cons_eq_cons.mp h
    exact hB pre2 e post h2

theorem counts_append (A B : List TraceNode) (hA : Counts A) (hB : Counts B)
    (hdisj : ∀ e ∈ A, B.countP (childB e.trace_address) = 0) :
    Counts (A ++ B) := by
  intro pre e post h
  rcases List.append_eq_append_iff.mp h with ⟨a2, ha, hb⟩ | ⟨c2, hc, hd⟩
  · exact hB a2 e post hb
  · cases c2 with
    | nil =>
      rw [List.nil_append] at hd
      exact hB [] e post (by simpa using hd.symm)
    | cons f c3 =>
      rw [List.cons_append] at hd
      obtain ⟨rfl, rfl⟩ := List.cons_eq_cons.mp hd
      have hmem : e ∈ A := by simp [hc]
      have h1 := hA pre e c3 hc
      rw [List.countP_append, hdisj e hmem]
      omega

mutual
theorem flattenT_addr_extends (t : CTree) :
    ∀ (p : List Nat) (e : TraceNode),
      e ∈ flattenT t p → p <+: e.trace_address := by
  match t with
  | .node cs =>
    intro p e he
    simp only [flattenT, List.mem_cons] at he
    rcases he with rfl | he
    · exact List.prefix_refl _
    · obtain ⟨m, _, hpre⟩ := flattenF_addr_extends cs p 0 e he
      exact List.IsPrefix.trans ⟨[m], rfl⟩ hpre
theorem flattenF_addr_extends (cs : CForest) :
    ∀ (p : List Nat) (k : Nat) (e : TraceNode),
      e ∈ flattenF cs p k →
      ∃ m, k ≤ m ∧ (p ++ [m]) <+: e.trace_address := by
  match cs with
  | .nil => intro p k e he; simp [flattenF] at he
  | .cons c cs2 =>
    intro p k e he
    simp only [flattenF, List.mem_append] at he
    rcases he with he | he
    · exact ⟨k, Nat.le_refl k, flattenT_addr_extends c (p ++ [k]) e he⟩
    · obtain ⟨m, hm, hpre⟩ := flattenF_addr_extends cs2 p (k + 1) e he
      exact ⟨m, by omega, hpre⟩
end

theorem flattenF_addr_long (cs : CForest) (p : List Nat) (k : Nat)
    (e : TraceNode) (h : e ∈ flattenF cs p k) :
    p.length < e.trace_address.length := by
  obtain ⟨m, _, hpre⟩ := flattenF_addr_extends cs p k e h
  have := hpre.length_le
  simp at this
  omega

theorem pref_cancel_left (p u v : List Nat) (h : p ++ u <+: p ++ v) :
    u <+: v := by
  obtain ⟨s, hs⟩ := h
  rw [List.append_assoc] at hs
  exact ⟨s, List.append_cancel_left hs⟩

theorem snoc_index_inj (p : List Nat) (k j : Nat) (x : List Nat)
    (h1 : p ++ [k] <+: x) (h2 : p ++ [j] <+: x) : j = k := by
  obtain ⟨s, hs⟩ := h1
  rw [← hs, List.append_assoc] at h2
  have h3 := pref_cancel_left p [j] ([k] ++ s) h2
  exact (List.cons_prefix_cons.mp h3).1

theorem flattenT_countP_child (t : CTree) (p a : List Nat)
    (hne : p ≠ []) (hdrop : p.dropLast = a) :
    (flattenT t p).countP (childB a) = 1 := by
  match t with
  | .node cs =>
    simp only [flattenT, List.countP_cons]
    have hhead : childB a ⟨p, CForest.length cs⟩ = true := by
      simp only [childB]
      have h0 : p.isEmpty = false := by
        cases p with
        | nil => exact absurd rfl hne
        | cons q qs => rfl
      simp [h0, hdrop]
    have hplen : p.length = a.length + 1 := by
      rw [← hdrop, List.length_dropLast]
      have := List.length_pos.mpr hne
      omega
    have hzero : (flattenF cs p 0).countP (childB a) = 0 := by
      rw [List.countP_eq_zero]
      intro e he hb
      have hl := flattenF_addr_long cs p 0 e he
      have hlen := childB_length a e hb
      omega
    rw [hzero, hhead]
    simp

theorem flattenF_countP_root :
    ∀ (cs : CForest) (p : List Nat) (k : Nat),
      (flattenF cs p k).countP (childB p) = cs.length := by
  intro cs
  match cs with
  | .nil => intro p k; simp [flattenF, CForest.length]
  | .cons c cs2 =>
    intro p k
    simp only [flattenF, List.countP_append, CForest.length]
    rw [flattenF_countP_root cs2 p (k + 1),
      flattenT_countP_child c (p ++ [k]) p (by simp) List.dropLast_concat]
    omega

mutual
theorem flattenT_counts (t : CTree) : ∀ p, Counts (flattenT t p) := by
  match t with
  | .node cs =>
    intro p
    simp only [flattenT]
    exact counts_cons ⟨p, CForest.length cs⟩ (flattenF cs p 0)
      (flattenF_countP_root cs p 0) (flattenF_counts cs p 0)
theorem flattenF_counts (cs : CForest) : ∀ p k, Counts (flattenF cs p k) := by
  match cs with
  | .nil => intro p k; simpa [flattenF] using counts_nil
  | .cons c cs2 =>
    intro p k
    simp only [flattenF]
    refine counts_append _ _ (flattenT_counts c (p ++ [k]))
      (flattenF_counts cs2 p (k + 1)) ?_
    intro e he
    rw [List.countP_eq_zero]
    intro x hx hb
    have h1 : (p ++ [k]) <+: e.trace_address := flattenT_addr_extends c (p ++ [k]) e he
    obtain ⟨kk, hkk⟩ := (childB_iff _ x).mp hb
    have h2 : (p ++ [k]) <+: x.trace_address := by
      rw [hkk]
      exact List.IsPrefix.trans h1 ⟨[kk], rfl⟩
    obtain ⟨m, hm, h3⟩ := flattenF_addr_extends cs2 p (k + 1) x hx
    have := snoc_index_inj p k m x.trace_address h2 h3
    omega
end

theorem run_events_nil (st : TTState) : run_events [] st = st := rfl

theorem run_events_cons (e : TEvent) (es : List TEvent) (st : TTState) :
    run_events (e :: es) st = run_events es (step_event st e) := rfl

theorem run_events_append (a b : List TEvent) (st : TTState) :
    run_events (a ++ b) st = run_events b (run_events a st) := by
  unfold run_events
  exact List.foldl_append _ _ _ _

theorem step_event_start_nested (tr : List TraceNode) (p : Nat)
    (rest : List Nat) (dep : Nat) (A : List Nat) (S : Nat) (hd : 0 < dep)
    (hA : tr.getD p ⟨[], 0⟩ = ⟨A, S⟩) :
    step_event ⟨tr, p :: rest⟩ (.startE dep) =
      ⟨tr.set p ⟨A, S + 1⟩ ++ [(⟨A ++ [S], 0⟩ : TraceNode)],
       tr.length :: p :: rest⟩ := by
  have h1 : step_event ⟨tr, p :: rest⟩ (.startE dep) =
      if 0 < dep then
        ⟨tr.set p ⟨(tr.getD p ⟨[], 0⟩).trace_address,
            (tr.getD p ⟨[], 0⟩).sub_traces + 1⟩ ++
          [(⟨(tr.getD p ⟨[], 0⟩).trace_address ++
            [(tr.getD p ⟨[], 0⟩).sub_traces], 0⟩ : TraceNode)],
         tr.length :: p :: rest⟩
      else ⟨tr ++ [(⟨[], 0⟩ : TraceNode)], tr.length :: p :: rest⟩ := rfl
  rw [h1, if_pos hd, hA]

mutual
theorem run_eventsT_sim (t : CTree) :
    ∀ (d : Nat) (tr : List TraceNode) (p : Nat) (rest : List Nat)
      (A : List Nat) (S : Nat),
      0 < d → p < tr.length → tr.getD p ⟨[], 0⟩ = ⟨A, S⟩ →
      run_events (eventsT t d) ⟨tr, p :: rest⟩ =
        ⟨tr.set p ⟨A, S + 1⟩ ++ flattenT t (A ++ [S]), p :: rest⟩ := by
  match t with
  | .node cs =>
    intro d tr p rest A S hd hp hA
    have he : eventsT (.node cs) d =
        .startE d :: (eventsF cs (d + 1) ++ [.endE]) := rfl
    rw [he, run_events_cons, step_event_start_nested tr p rest d A S hd hA,
      run_events_append]
    have hlen2 : (tr.set p ⟨A, S + 1⟩).length = tr.length := List.length_set ..
    have hp2 : tr.length <
        (tr.set p ⟨A, S + 1⟩ ++ [(⟨A ++ [S], 0⟩ : TraceNode)]).length := by
      simp
    have hget2 : (tr.set p ⟨A, S + 1⟩ ++ [(⟨A ++ [S], 0⟩ : TraceNode)]).getD tr.length
        ⟨[], 0⟩ = ⟨A ++ [S], 0⟩ := by
      have h := list_getD_concat_self (⟨[], 0⟩ : TraceNode)
        (tr.set p ⟨A, S + 1⟩) ⟨A ++ [S], 0⟩
      rwa [hlen2] at h
    rw [run_eventsF_sim cs (d + 1) _ tr.length (p :: rest) (A ++ [S]) 0
      (by omega) hp2 hget2]
    rw [run_events_cons, run_events_nil]
    have hset : (tr.set p ⟨A, S + 1⟩ ++ [(⟨A ++ [S], 0⟩ : TraceNode)]).set tr.length
        ⟨A ++ [S], 0 + CForest.length cs⟩ =
        tr.set p ⟨A, S + 1⟩ ++ [⟨A ++ [S], 0 + CForest.length cs⟩] := by
      have h := list_set_concat_self (tr.set p ⟨A, S + 1⟩)
        (⟨A ++ [S], 0⟩ : TraceNode) ⟨A ++ [S], 0 + CForest.length cs⟩
      rwa [hlen2] at h
    rw [hset]
    simp [step_event, flattenT]
theorem run_eventsF_sim (cs : CForest) :
    ∀ (d : Nat) (tr : List TraceNode) (p : Nat) (rest : List Nat)
      (A : List Nat) (S : Nat),
      0 < d → p < tr.length → tr.getD p ⟨[], 0⟩ = ⟨A, S⟩ →
      run_events (eventsF cs d) ⟨tr, p :: rest⟩ =
        ⟨tr.set p ⟨A, S + CForest.length cs⟩ ++ flattenF cs A S,
         p :: rest⟩ := by
  match cs with
  | .nil =>
    intro d tr p rest A S hd hp hA
    have he : eventsF .nil d = [] := rfl
    rw [he, run_events_nil]
    have hback : (⟨A, S + CForest.length .nil⟩ : TraceNode) =
        tr.getD p ⟨[], 0⟩ := by
      rw [hA]
      simp [CForest.length]
    rw [hback, list_set_getD_self _ tr p hp]
    simp [flattenF]
  | .cons c cs2 =>
    intro d tr p rest A S hd hp hA
    have he : eventsF (.cons c cs2) d = eventsT c d ++ eventsF cs2 d := rfl
    rw [he, run_events_append]
    rw [run_eventsT_sim c d tr p rest A S hd hp hA]
    have hp2 : p < (tr.set p ⟨A, S + 1⟩ ++ flattenT c (A ++ [S])).length := by
      simp only [List.length_append, List.length_set]
      omega
    have hget2 : (tr.set p ⟨A, S + 1⟩ ++ flattenT c (A ++ [S])).getD p
        ⟨[], 0⟩ = ⟨A, S + 1⟩ := by
      rw [List.getD_append _ _ _ _ (by simp only [List.length_set]; omega)]
      exact list_getD_set_self _ tr p _ hp
    rw [run_eventsF_sim cs2 d _ p rest A (S + 1) hd hp2 hget2]
    have hsetl : (tr.set p ⟨A, S + 1⟩ ++ flattenT c (A ++ [S])).set p
        ⟨A, S + 1 + CForest.length cs2⟩ =
        tr.set p ⟨A, S + 1 + CForest.length cs2⟩ ++ flattenT c (A ++ [S]) := by
      rw [List.set_append_left _ _ (by simp only [List.length_set]; omega)]
      rw [List.set_set]
    rw [hsetl]
    have harith : S + 1 + CForest.length cs2 =
        S + CForest.length (.cons c cs2) := by
      simp [CForest.length]
      omega
    rw [harith]
    simp [flattenF, List.append_assoc]
end

theorem run_traces_eq_flatten (t : CTree) :
    (run_traces t).traces = flattenT t [] ∧
    (run_traces t).index_stack = [] := by
  match t with
  | .node cs =>
    unfold run_traces
    have he : eventsT (.node cs) 0 = .startE 0 :: (eventsF cs 1 ++ [.endE]) :=
      rfl
    rw [he, run_events_cons]
    have h0 : step_event ⟨[], []⟩ (.startE 0) =
        ⟨[(⟨[], 0⟩ : TraceNode)], [0]⟩ := rfl
    rw [h0, run_events_append]
    have hget : ([(⟨[], 0⟩ : TraceNode)]).getD 0 ⟨[], 0⟩ = ⟨[], 0⟩ := rfl
    rw [run_eventsF_sim cs 1 [(⟨[], 0⟩ : TraceNode)] 0 [] [] 0 (by decide)
      (by decide) hget]
    rw [run_events_cons, run_events_nil]
    constructor
    · simp [step_event, flattenT]
    · rfl

/-- C7.  On every execution start at depth > 0 with a non-empty open-frame
stack, the new frame's `trace_address` is the open parent's `trace_address`
extended by the parent's current `sub_traces`, whose counter is then
incremented; consequently, in the finished flat list of any transaction's
call tree, every trace's `sub_traces` equals the number of later-emitted
traces whose `trace_address` extends its own by exactly one element. -/
theorem trace_subtraces_count :
    (∀ (st : TTState) (dep p : Nat) (rest : List Nat) (A : List Nat) (S : Nat),
      0 < dep → st.index_stack = p :: rest → p < st.traces.length →
      st.traces.getD p ⟨[], 0⟩ = ⟨A, S⟩ →
      (step_event st (.startE dep)).traces =
        st.traces.set p ⟨A, S + 1⟩ ++ [(⟨A ++ [S], 0⟩ : TraceNode)]) ∧
    (∀ (t : CTree) (pre : List TraceNode) (e : TraceNode)
        (post : List TraceNode),
      (run_traces t).traces = pre ++ e :: post →
      e.sub_traces = post.countP (childB e.trace_address)) ∧
    (∀ (a : List Nat) (tr : TraceNode),
      childB a tr = true ↔ ∃ k, tr.trace_address = a ++ [k]) := by
  refine ⟨?_, ?_, childB_iff⟩
  · intro st dep p rest A S hd hstack hp hA
    obtain ⟨tr, is⟩ := st
    simp only at hstack hA
    subst hstack
    rw [step_event_start_nested tr p rest dep A S hd hA]
  · intro t pre e post h
    rw [(run_traces_eq_flatten t).1] at h
    exact flattenT_counts t [] pre e post h

/-- Witness for C7: a root frame with two children.  The tracer produces
`[⟨[], 2⟩, ⟨[0], 0⟩, ⟨[1], 0⟩]` and the root's `sub_traces = 2` equals the
number of later traces whose address extends `[]` by one element. -/
theorem trace_subtraces_count_witness :
    (run_traces (.node (.cons (.node .nil) (.cons (.node .nil) .nil)))).traces =
      [⟨[], 2⟩, ⟨[0], 0⟩, ⟨[1], 0⟩] ∧
    (⟨[], 2⟩ : TraceNode).sub_traces =
      ([⟨[0], 0⟩, ⟨[1], 0⟩] : List TraceNode).countP
        (childB (⟨[], 2⟩ : TraceNode).trace_address) := by
  refine ⟨by decide, ?_⟩
  exact trace_subtraces_count.2.1
    (.node (.cons (.node .nil) (.cons (.node .nil) .nil)))
    [] ⟨[], 2⟩ [⟨[0], 0⟩, ⟨[1], 0⟩] (by decide)

end EvmTrace
